import Mathlib

/-!
A verification development for the identity-reconciliation service
(`src/index.ts`).  The contact table, the matching query, the
primary-consolidation loop, the new-information detector and the response
assembler of `identifyContact` are embedded as executable Lean
definitions, and the behavioural properties of the resolver are proved
about them.

Modelling conventions:
* a SQL `NULL`able column is an `Option`;
* timestamps and ids are `Nat`; `NOW()` is an explicit `now` parameter;
* the table is a list of rows in insertion order together with the next
  `SERIAL` id; `ORDER BY "createdAt" ASC` is a stable insertion sort, so
  rows with equal `createdAt` keep their insertion (id) order;
* the thrown JavaScript `TypeError` (reading `primaryContacts[0].id` when
  no primary matched) is `Except.error`, and the surrounding
  `BEGIN`/`COMMIT`/`ROLLBACK` discipline means a failing call returns the
  untouched store.
-/

/-- `linkPrecedence` column: `'primary' | 'secondary'`. -/
inductive LinkPrecedence where
  | primary
  | secondary
deriving DecidableEq

/-- One row of the `contacts` table (interface `Contact` in the source). -/
structure Contact where
  id : Nat
  phoneNumber : Option String
  email : Option String
  linkedId : Option Nat
  linkPrecedence : LinkPrecedence
  createdAt : Nat
  updatedAt : Nat
  deletedAt : Option Nat
deriving DecidableEq

/-- The `contacts` table: rows in insertion order plus the next SERIAL id. -/
structure Store where
  rows : List Contact
  nextId : Nat
deriving DecidableEq

/-- The body of `IdentifyResponse` (`contact: {...}`). -/
structure IdentifyResponse where
  primaryContactId : Nat
  emails : List String
  phoneNumbers : List String
  secondaryContactIds : List Nat
deriving DecidableEq

/-- The `WHERE` clause of the matching query:
`(email = $1 AND $1 IS NOT NULL) OR ("phoneNumber" = $2 AND $2 IS NOT NULL)`.
SQL equality on a NULL column is never true. -/
def matchesQuery (email phoneNumber : Option String) (c : Contact) : Bool :=
  (email.isSome && c.email == email) || (phoneNumber.isSome && c.phoneNumber == phoneNumber)

/-- Stable insertion step for `ORDER BY "createdAt" ASC`. -/
def insertByCreatedAt (c : Contact) : List Contact → List Contact
  | [] => [c]
  | d :: ds => if c.createdAt ≤ d.createdAt then c :: d :: ds else d :: insertByCreatedAt c ds

/-- `ORDER BY "createdAt" ASC` as a stable sort of the table order. -/
def orderByCreatedAtAsc : List Contact → List Contact
  | [] => []
  | c :: cs => insertByCreatedAt c (orderByCreatedAtAsc cs)

/-- The matching query of `identifyContact`: select the rows matching the
submitted email or phone, ordered by `createdAt` ascending.  There is no
filter on `deletedAt`. -/
def findMatches (email phoneNumber : Option String) (s : Store) : List Contact :=
  orderByCreatedAtAsc (s.rows.filter (matchesQuery email phoneNumber))

/-- `c.linkPrecedence === 'primary'`. -/
def isPrimaryB (c : Contact) : Bool := c.linkPrecedence == .primary

/-- `contacts.filter(c => c.linkPrecedence === 'primary')` followed by the
`sort` on `createdAt` (a stable JavaScript sort). -/
def sortPrimaries (l : List Contact) : List Contact :=
  orderByCreatedAtAsc (l.filter isPrimaryB)

/-- The first consolidation UPDATE:
`SET "linkPrecedence" = 'secondary', "linkedId" = $1, "updatedAt" = NOW() WHERE id = $2`. -/
def demoteRow (sid now pid : Nat) (c : Contact) : Contact :=
  if c.id = pid then { c with linkPrecedence := .secondary, linkedId := some sid, updatedAt := now }
  else c

/-- The second consolidation UPDATE:
`SET "linkedId" = $1, "updatedAt" = NOW() WHERE "linkedId" = $2`. -/
def repointRow (sid now pid : Nat) (c : Contact) : Contact :=
  if c.linkedId = some pid then { c with linkedId := some sid, updatedAt := now }
  else c

/-- One iteration of the consolidation loop: demote one losing primary,
then re-point its dependents. -/
def demoteOne (sid now pid : Nat) (s : Store) : Store :=
  { s with rows := (s.rows.map (demoteRow sid now pid)).map (repointRow sid now pid) }

/-- The consolidation loop `for (const primary of otherPrimaries) {...}`. -/
def pureDemote (sid now : Nat) (s : Store) : List Contact → Store
  | [] => s
  | q :: qs => pureDemote sid now (demoteOne sid now q.id s) qs

/-- `SELECT * FROM contacts WHERE "linkedId" = $1` (no ORDER BY: table order). -/
def fetchRoster (s : Store) (pid : Nat) : List Contact :=
  s.rows.filter (fun c => c.linkedId == some pid)

/-- `[primaryContact.email, ...secondaryContacts.map(c => c.email)].filter(Boolean)`. -/
def knownVals (pv : Option String) (roster : List (Option String)) : List String :=
  (pv :: roster).filterMap id

/-- `email && !allEmails.includes(email)` coerced to a boolean. -/
def hasNew (v : Option String) (known : List String) : Bool :=
  match v with
  | some x => !(known.contains x)
  | none => false

/-- `Array.from(new Set(...))`: deduplication keeping first occurrences. -/
def dedupFirstAux (seen : List String) : List String → List String
  | [] => []
  | x :: xs => if x ∈ seen then dedupFirstAux seen xs else x :: dedupFirstAux (x :: seen) xs

/-- The splice/unshift block that moves the primary value to the front when
it is present but not already first. -/
def forceFirst (v : Option String) (l : List String) : List String :=
  match v with
  | none => l
  | some x => if x ∈ l ∧ l.head? ≠ some x then x :: l.erase x else l

/-- Response-list assembly: dedup the non-null values of
`[primary, ...roster]` keeping first occurrences, then force the primary
value first. -/
def assembleVals (pv : Option String) (rv : List (Option String)) : List String :=
  forceFirst pv (dedupFirstAux [] ((pv :: rv).filterMap id))

/-- The non-empty-match branch of `identifyContact`, after the surviving
primary `pc` and the losing primaries `others` have been determined. -/
def mainResult (email phoneNumber : Option String) (now : Nat) (s : Store)
    (pc : Contact) (others : List Contact) : Store × Except Unit IdentifyResponse :=
  let s2 := pureDemote pc.id now s others
  let secondaryContacts := fetchRoster s2 pc.id
  let allEmails := knownVals pc.email (secondaryContacts.map (·.email))
  let allPhones := knownVals pc.phoneNumber (secondaryContacts.map (·.phoneNumber))
  let hasNewEmail := hasNew email allEmails
  let hasNewPhone := hasNew phoneNumber allPhones
  let step :=
    if hasNewEmail || hasNewPhone then
      let newSecondary : Contact :=
        ⟨s2.nextId, if hasNewPhone then phoneNumber else none,
         if hasNewEmail then email else none, some pc.id, .secondary, now, now, none⟩
      ({ rows := s2.rows ++ [newSecondary], nextId := s2.nextId + 1 },
       secondaryContacts ++ [newSecondary])
    else (s2, secondaryContacts)
  (step.1,
   .ok { primaryContactId := pc.id,
         emails := assembleVals pc.email (step.2.map (·.email)),
         phoneNumbers := assembleVals pc.phoneNumber (step.2.map (·.phoneNumber)),
         secondaryContactIds := step.2.map (·.id) })

/-- `identifyContact`.  The result pairs the visible store after the call
with the outcome: `.ok` a response, or `.error ()` when the call throws
(then the transaction was rolled back, so the visible store is the input
store).  The only internal throw is the `TypeError` from
`primaryContacts[0]` being `undefined` when every matched row is a
secondary. -/
def identifyContact (email phoneNumber : Option String) (now : Nat) (s : Store) :
    Store × Except Unit IdentifyResponse :=
  let matchingContacts := findMatches email phoneNumber s
  if matchingContacts.isEmpty then
    let newContact : Contact := ⟨s.nextId, phoneNumber, email, none, .primary, now, now, none⟩
    ({ rows := s.rows ++ [newContact], nextId := s.nextId + 1 },
     .ok { primaryContactId := newContact.id,
           emails := email.toList, phoneNumbers := phoneNumber.toList,
           secondaryContactIds := [] })
  else
    match sortPrimaries matchingContacts with
    | [] => (s, .error ())
    | primaryContact :: otherPrimaries =>
      mainResult email phoneNumber now s primaryContact otherPrimaries

/-- Rows have strictly increasing ids (SERIAL order) and every id is below
the next SERIAL value. -/
def WF (s : Store) : Prop :=
  s.rows.Pairwise (fun a b => a.id < b.id) ∧ ∀ c ∈ s.rows, c.id < s.nextId

/-- The cluster invariant: a primary has no link, a secondary links
directly to an existing primary row. -/
def ClusterInv (s : Store) : Prop :=
  ∀ c ∈ s.rows,
    (c.linkPrecedence = .primary → c.linkedId = none) ∧
    (c.linkPrecedence = .secondary →
      ∃ q ∈ s.rows, c.linkedId = some q.id ∧ q.linkPrecedence = .primary)

/-- Strict ordering `createdAt` ascending, ties broken by `id` ascending. -/
def lexLT (a b : Contact) : Prop :=
  a.createdAt < b.createdAt ∨ (a.createdAt = b.createdAt ∧ a.id < b.id)

/-- Projection of the outcome to the returned `primaryContactId`. -/
def respPrimaryId : Except Unit IdentifyResponse → Option Nat
  | .ok r => some r.primaryContactId
  | .error _ => none

deriving instance DecidableEq for Except

instance (s : Store) : Decidable (ClusterInv s) := by
  unfold ClusterInv; infer_instance

instance (s : Store) : Decidable (WF s) := by
  unfold WF; infer_instance

instance (a b : Contact) : Decidable (lexLT a b) := by
  unfold lexLT; infer_instance

/-! ### Sorting lemmas -/

theorem insertByCreatedAt_perm (c : Contact) (l : List Contact) :
    List.Perm (insertByCreatedAt c l) (c :: l) := by
  induction l with
  | nil => exact List.Perm.refl _
  | cons d ds ih =>
    unfold insertByCreatedAt
    by_cases h : c.createdAt ≤ d.createdAt
    · simp [h]
    · simp only [h, if_false]
      exact (ih.cons d).trans (List.Perm.swap c d ds)

theorem orderByCreatedAtAsc_perm (l : List Contact) :
    List.Perm (orderByCreatedAtAsc l) l := by
  induction l with
  | nil => exact List.Perm.refl _
  | cons c cs ih => exact (insertByCreatedAt_perm c _).trans (ih.cons c)

theorem mem_orderByCreatedAtAsc {c : Contact} {l : List Contact} :
    c ∈ orderByCreatedAtAsc l ↔ c ∈ l :=
  (orderByCreatedAtAsc_perm l).mem_iff

theorem orderByCreatedAtAsc_eq_nil {l : List Contact} :
    orderByCreatedAtAsc l = [] ↔ l = [] := by
  constructor
  · intro h
    have h2 := (orderByCreatedAtAsc_perm l).symm.length_eq
    rw [h] at h2
    simp only [List.length_nil] at h2
    exact List.eq_nil_of_length_eq_zero h2
  · intro h; subst h; rfl

theorem insertByCreatedAt_pairwise_lex {c : Contact} {l : List Contact}
    (hl : l.Pairwise lexLT)
    (hx : ∀ d ∈ l, c.createdAt = d.createdAt → c.id < d.id) :
    (insertByCreatedAt c l).Pairwise lexLT := by
  induction l with
  | nil => simp [insertByCreatedAt]
  | cons d ds ih =>
    unfold insertByCreatedAt
    by_cases h : c.createdAt ≤ d.createdAt
    · simp only [h, if_true]
      refine List.Pairwise.cons ?_ hl
      intro x hx2
      have hdx : c.createdAt ≤ x.createdAt := by
        rcases List.mem_cons.mp hx2 with rfl | h2
        · exact h
        · rcases (List.pairwise_cons.mp hl).1 x h2 with h3 | h3
          · omega
          · omega
      rcases Nat.lt_or_ge c.createdAt x.createdAt with h4 | h4
      · exact Or.inl h4
      · have hEq : c.createdAt = x.createdAt := by omega
        exact Or.inr ⟨hEq, hx x hx2 hEq⟩
    · simp only [h, if_false]
      refine List.Pairwise.cons ?_ (ih (List.pairwise_cons.mp hl).2 ?_)
      · intro x hx2
        rcases List.mem_cons.mp ((insertByCreatedAt_perm c ds).mem_iff.mp hx2) with rfl | h2
        · exact Or.inl (by omega)
        · exact (List.pairwise_cons.mp hl).1 x h2
      · intro x hx2 h3
        exact hx x (List.mem_cons_of_mem d hx2) h3

theorem orderByCreatedAtAsc_pairwise_lex {l : List Contact}
    (h : l.Pairwise (fun a b => a.createdAt = b.createdAt → a.id < b.id)) :
    (orderByCreatedAtAsc l).Pairwise lexLT := by
  induction l with
  | nil => simp [orderByCreatedAtAsc]
  | cons c cs ih =>
    refine insertByCreatedAt_pairwise_lex (ih (List.pairwise_cons.mp h).2) ?_
    intro d hd
    exact (List.pairwise_cons.mp h).1 d ((orderByCreatedAtAsc_perm cs).mem_iff.mp hd)

theorem eq_of_mem_of_id {l : List Contact} {a b : Contact}
    (h : l.Pairwise (fun a b => a.id < b.id)) (ha : a ∈ l) (hb : b ∈ l)
    (hid : a.id = b.id) : a = b := by
  induction l with
  | nil => cases ha
  | cons x xs ih =>
    rcases List.pairwise_cons.mp h with ⟨hx, hxs⟩
    rcases List.mem_cons.mp ha with rfl | ha2
    · rcases List.mem_cons.mp hb with rfl | hb2
      · rfl
      · exact absurd hid (Nat.ne_of_lt (hx b hb2))
    · rcases List.mem_cons.mp hb with rfl | hb2
      · exact absurd hid.symm (Nat.ne_of_lt (hx a ha2))
      · exact ih hxs ha2 hb2

/-! ### The consolidation loop as a per-row function -/

/-- The effect of the whole consolidation loop on a single row, given the
ids of the losing primaries in loop order. -/
def demoteChain (sid now : Nat) (pids : List Nat) (c : Contact) : Contact :=
  match pids with
  | [] => c
  | pid :: rest => demoteChain sid now rest (repointRow sid now pid (demoteRow sid now pid c))

theorem pureDemote_nextId (sid now : Nat) (s : Store) (L : List Contact) :
    (pureDemote sid now s L).nextId = s.nextId := by
  induction L generalizing s with
  | nil => rfl
  | cons q qs ih => simp [pureDemote, ih, demoteOne]

theorem pureDemote_rows (sid now : Nat) (s : Store) (L : List Contact) :
    (pureDemote sid now s L).rows = s.rows.map (demoteChain sid now (L.map (·.id))) := by
  induction L generalizing s with
  | nil => simp [pureDemote, demoteChain]
  | cons q qs ih =>
    simp only [pureDemote, ih, demoteOne, List.map_map, List.map_cons]
    apply List.map_congr_left
    intro c _
    rfl

theorem demoteRow_id (sid now pid : Nat) (c : Contact) : (demoteRow sid now pid c).id = c.id := by
  unfold demoteRow; split <;> rfl

theorem repointRow_id (sid now pid : Nat) (c : Contact) : (repointRow sid now pid c).id = c.id := by
  unfold repointRow; split <;> rfl

theorem demoteChain_id (sid now : Nat) (pids : List Nat) (c : Contact) :
    (demoteChain sid now pids c).id = c.id := by
  induction pids generalizing c with
  | nil => rfl
  | cons pid rest ih =>
    unfold demoteChain
    rw [ih, repointRow_id, demoteRow_id]

theorem demoteChain_email (sid now : Nat) (pids : List Nat) (c : Contact) :
    (demoteChain sid now pids c).email = c.email := by
  induction pids generalizing c with
  | nil => rfl
  | cons pid rest ih =>
    unfold demoteChain
    rw [ih]
    unfold repointRow demoteRow
    split <;> split <;> rfl

theorem demoteChain_phone (sid now : Nat) (pids : List Nat) (c : Contact) :
    (demoteChain sid now pids c).phoneNumber = c.phoneNumber := by
  induction pids generalizing c with
  | nil => rfl
  | cons pid rest ih =>
    unfold demoteChain
    rw [ih]
    unfold repointRow demoteRow
    split <;> split <;> rfl

theorem demoteChain_createdAt (sid now : Nat) (pids : List Nat) (c : Contact) :
    (demoteChain sid now pids c).createdAt = c.createdAt := by
  induction pids generalizing c with
  | nil => rfl
  | cons pid rest ih =>
    unfold demoteChain
    rw [ih]
    unfold repointRow demoteRow
    split <;> split <;> rfl

theorem matchesQuery_demoteChain (e p : Option String) (sid now : Nat) (pids : List Nat)
    (c : Contact) : matchesQuery e p (demoteChain sid now pids c) = matchesQuery e p c := by
  unfold matchesQuery
  rw [demoteChain_email, demoteChain_phone]

/-- A row that is not a losing primary and does not point at one is left
alone by the consolidation loop. -/
theorem demoteChain_untouched {sid now : Nat} {pids : List Nat} {c : Contact}
    (h1 : c.id ∉ pids) (h2 : ∀ t ∈ pids, c.linkedId ≠ some t) :
    demoteChain sid now pids c = c := by
  induction pids with
  | nil => rfl
  | cons pid rest ih =>
    unfold demoteChain
    have hid : c.id ≠ pid := fun h => h1 (h ▸ List.mem_cons_self pid rest)
    have hlk : c.linkedId ≠ some pid := h2 pid (List.mem_cons_self pid rest)
    rw [demoteRow, if_neg hid, repointRow, if_neg hlk]
    exact ih (fun h => h1 (List.mem_cons_of_mem pid h))
      (fun t ht => h2 t (List.mem_cons_of_mem pid ht))

/-- A losing primary (a row whose id is in the loop list and whose
`linkedId` is null) is demoted to a secondary of the survivor. -/
theorem demoteChain_loser {sid now : Nat} {pids : List Nat} {c : Contact}
    (hnd : pids.Nodup) (hs : sid ∉ pids) (h1 : c.id ∈ pids) (h2 : c.linkedId = none) :
    demoteChain sid now pids c =
      { c with linkPrecedence := .secondary, linkedId := some sid, updatedAt := now } := by
  induction pids with
  | nil => cases h1
  | cons pid rest ih =>
    unfold demoteChain
    rcases List.mem_cons.mp h1 with heq | hmem
    · rw [demoteRow, if_pos heq, repointRow]
      have hsid : sid ≠ pid := fun h => hs (h ▸ List.mem_cons_self pid rest)
      rw [if_neg (by simp [hsid])]
      refine demoteChain_untouched ?_ ?_
      · simpa [heq] using (List.nodup_cons.mp hnd).1
      · intro t ht h
        have : sid = t := by simpa using h
        exact hs (this ▸ List.mem_cons_of_mem pid ht)
    · have hid : c.id ≠ pid := by
        intro h
        exact (List.nodup_cons.mp hnd).1 (h ▸ hmem)
      rw [demoteRow, if_neg hid, repointRow, if_neg (by simp [h2])]
      exact ih (List.nodup_cons.mp hnd).2
        (fun h => hs (List.mem_cons_of_mem pid h)) hmem

/-- A row pointing at a losing primary is re-pointed at the survivor. -/
theorem demoteChain_repointed {sid now : Nat} {pids : List Nat} {c : Contact} {t : Nat}
    (hnd : pids.Nodup) (hs : sid ∉ pids) (h1 : c.id ∉ pids)
    (ht : c.linkedId = some t) (htm : t ∈ pids) :
    demoteChain sid now pids c = { c with linkedId := some sid, updatedAt := now } := by
  induction pids with
  | nil => cases htm
  | cons pid rest ih =>
    unfold demoteChain
    have hid : c.id ≠ pid := fun h => h1 (h ▸ List.mem_cons_self pid rest)
    rcases List.mem_cons.mp htm with heq | hmem
    · rw [demoteRow, if_neg hid, repointRow, if_pos (by rw [ht, heq])]
      refine demoteChain_untouched ?_ ?_
      · intro h
        exact h1 (List.mem_cons_of_mem pid h)
      · intro u hu h
        have : sid = u := by simpa using h
        exact hs (this ▸ List.mem_cons_of_mem pid hu)
    · have hne : c.linkedId ≠ some pid := by
        rw [ht]
        intro h
        have : t = pid := by simpa using h
        exact (List.nodup_cons.mp hnd).1 (this ▸ hmem)
      rw [demoteRow, if_neg hid, repointRow, if_neg hne]
      exact ih (List.nodup_cons.mp hnd).2
        (fun h => hs (List.mem_cons_of_mem pid h))
        (fun h => h1 (List.mem_cons_of_mem pid h)) hmem

/-! ### Characterising the match set and the sorted primaries -/

theorem filter_and_eq (p q : Contact → Bool) (l : List Contact) :
    l.filter (fun a => p a && q a) = (l.filter p).filter q := by
  induction l with
  | nil => rfl
  | cons x xs ih =>
    by_cases hp : p x <;> by_cases hq : q x <;>
      simp [List.filter_cons, hp, hq, ih]

theorem mem_findMatches {e p : Option String} {s : Store} {c : Contact} :
    c ∈ findMatches e p s ↔ c ∈ s.rows ∧ matchesQuery e p c = true := by
  unfold findMatches
  rw [mem_orderByCreatedAtAsc, List.mem_filter]

theorem sortPrimaries_findMatches_perm (e p : Option String) (s : Store) :
    List.Perm (sortPrimaries (findMatches e p s))
      (s.rows.filter (fun c => matchesQuery e p c && isPrimaryB c)) := by
  unfold sortPrimaries findMatches
  refine (orderByCreatedAtAsc_perm _).trans ?_
  rw [filter_and_eq]
  exact ((orderByCreatedAtAsc_perm _).filter _).symm.symm

theorem mem_sortPrimaries_findMatches {e p : Option String} {s : Store} {c : Contact} :
    c ∈ sortPrimaries (findMatches e p s) ↔
      c ∈ s.rows ∧ matchesQuery e p c = true ∧ c.linkPrecedence = .primary := by
  rw [(sortPrimaries_findMatches_perm e p s).mem_iff, List.mem_filter]
  simp [isPrimaryB, and_assoc]

/-- The facts about the head and tail of the sorted primary list that the
consolidation proofs need. -/
theorem spFacts {e p : Option String} {s : Store} {pc : Contact} {others : List Contact}
    (hw : WF s) (hi : ClusterInv s)
    (hp : sortPrimaries (findMatches e p s) = pc :: others) :
    (pc ∈ s.rows ∧ pc.linkPrecedence = .primary ∧ pc.linkedId = none ∧
        matchesQuery e p pc = true) ∧
    (∀ q ∈ others, q ∈ s.rows ∧ q.linkPrecedence = .primary ∧ q.linkedId = none ∧
        matchesQuery e p q = true) ∧
    pc.id ∉ others.map (·.id) ∧ (others.map (·.id)).Nodup ∧
    (∀ c ∈ s.rows, c.id ∈ others.map (·.id) → ∃ q ∈ others, c = q) := by
  have hpcMem : pc ∈ sortPrimaries (findMatches e p s) := by
    rw [hp]; exact List.mem_cons_self _ _
  have hoMem : ∀ q ∈ others, q ∈ sortPrimaries (findMatches e p s) := by
    intro q hq; rw [hp]; exact List.mem_cons_of_mem _ hq
  have hpc := mem_sortPrimaries_findMatches.mp hpcMem
  have hothers : ∀ q ∈ others, q ∈ s.rows ∧ q.linkPrecedence = .primary ∧ q.linkedId = none ∧
      matchesQuery e p q = true := by
    intro q hq
    have h2 := mem_sortPrimaries_findMatches.mp (hoMem q hq)
    exact ⟨h2.1, h2.2.2, ((hi q h2.1).1 h2.2.2), h2.2.1⟩
  have hPairNe : (pc :: others).Pairwise (fun a b => a.id ≠ b.id) := by
    rw [← hp]
    rw [(sortPrimaries_findMatches_perm e p s).pairwise_iff
      (fun {x y} (h : x.id ≠ y.id) => h.symm)]
    exact (hw.1.imp (fun h => Nat.ne_of_lt h)).filter _
  rcases List.pairwise_cons.mp hPairNe with ⟨hHead, hTail⟩
  refine ⟨⟨hpc.1, hpc.2.2, (hi pc hpc.1).1 hpc.2.2, hpc.2.1⟩, hothers, ?_, ?_, ?_⟩
  · intro h
    rcases List.mem_map.mp h with ⟨q, hq, hqid⟩
    exact hHead q hq hqid.symm
  · rw [List.Nodup, List.pairwise_map]
    exact hTail
  · intro c hc hm
    rcases List.mem_map.mp hm with ⟨q, hq, hqid⟩
    exact ⟨q, hq, eq_of_mem_of_id hw.1 hc (hothers q hq).1 hqid.symm⟩

/-! ### Branch equations for identifyContact -/

theorem identifyContact_empty_eq {e p : Option String} {now : Nat} {s : Store}
    (h : findMatches e p s = []) :
    identifyContact e p now s =
      ({ rows := s.rows ++ [⟨s.nextId, p, e, none, .primary, now, now, none⟩],
         nextId := s.nextId + 1 },
       .ok ⟨s.nextId, e.toList, p.toList, []⟩) := by
  unfold identifyContact
  rw [h]
  rfl

theorem sortPrimaries_nil : sortPrimaries [] = [] := rfl

theorem identifyContact_main_eq {e p : Option String} {now : Nat} {s : Store}
    {pc : Contact} {others : List Contact}
    (hp : sortPrimaries (findMatches e p s) = pc :: others) :
    identifyContact e p now s = mainResult e p now s pc others := by
  have hne : findMatches e p s ≠ [] := by
    intro h
    rw [h, sortPrimaries_nil] at hp
    cases hp
  unfold identifyContact
  rcases hM : findMatches e p s with _ | ⟨a, l⟩
  · exact absurd hM hne
  · rw [hM] at hp
    simp only [hp, List.isEmpty_cons, Bool.false_eq_true, if_false]

theorem identifyContact_nosp_eq {e p : Option String} {now : Nat} {s : Store}
    (hne : findMatches e p s ≠ []) (hp : sortPrimaries (findMatches e p s) = []) :
    identifyContact e p now s = (s, .error ()) := by
  unfold identifyContact
  rcases hM : findMatches e p s with _ | ⟨a, l⟩
  · exact absurd hM hne
  · rw [hM] at hp
    simp only [hp, List.isEmpty_cons, Bool.false_eq_true, if_false]

/-! ### Response assembly -/

theorem mem_dedupFirstAux {seen : List String} {l : List String} {a : String} :
    a ∈ dedupFirstAux seen l ↔ a ∈ l ∧ a ∉ seen := by
  induction l generalizing seen with
  | nil => simp [dedupFirstAux]
  | cons x xs ih =>
    unfold dedupFirstAux
    by_cases h : x ∈ seen
    · rw [if_pos h, ih]
      constructor
      · rintro ⟨h1, h2⟩
        exact ⟨List.mem_cons_of_mem x h1, h2⟩
      · rintro ⟨h1, h2⟩
        rcases List.mem_cons.mp h1 with rfl | h3
        · exact absurd h h2
        · exact ⟨h3, h2⟩
    · rw [if_neg h]
      constructor
      · intro h1
        rcases List.mem_cons.mp h1 with rfl | h2
        · exact ⟨List.mem_cons_self _ _, h⟩
        · rcases ih.mp h2 with ⟨h3, h4⟩
          refine ⟨List.mem_cons_of_mem x h3, fun h5 => h4 (List.mem_cons_of_mem x h5)⟩
      · rintro ⟨h1, h2⟩
        rcases List.mem_cons.mp h1 with rfl | h3
        · exact List.mem_cons_self _ _
        · by_cases h4 : a = x
          · subst h4; exact List.mem_cons_self _ _
          · exact List.mem_cons_of_mem _ (ih.mpr ⟨h3, by simp [h2, h4]⟩)

theorem nodup_dedupFirstAux (seen : List String) (l : List String) :
    (dedupFirstAux seen l).Nodup := by
  induction l generalizing seen with
  | nil => simp [dedupFirstAux]
  | cons x xs ih =>
    unfold dedupFirstAux
    by_cases h : x ∈ seen
    · rw [if_pos h]; exact ih seen
    · rw [if_neg h]
      refine List.nodup_cons.mpr ⟨?_, ih (x :: seen)⟩
      intro h2
      exact (mem_dedupFirstAux.mp h2).2 (List.mem_cons_self _ _)

theorem assembleVals_eq (pv : Option String) (rv : List (Option String)) :
    assembleVals pv rv = dedupFirstAux [] ((pv :: rv).filterMap id) := by
  unfold assembleVals forceFirst
  cases pv with
  | none => rfl
  | some x =>
    simp only [List.filterMap_cons, id]
    rw [show dedupFirstAux [] (x :: rv.filterMap id) =
        x :: dedupFirstAux [x] (rv.filterMap id) by simp [dedupFirstAux]]
    rw [if_neg]
    simp

theorem mem_assembleVals {pv : Option String} {rv : List (Option String)} {a : String} :
    a ∈ assembleVals pv rv ↔ (pv = some a ∨ some a ∈ rv) := by
  rw [assembleVals_eq, mem_dedupFirstAux]
  simp only [List.mem_filterMap, id, List.not_mem_nil, not_false_iff, and_true]
  constructor
  · rintro ⟨o, ho, rfl⟩
    rcases List.mem_cons.mp ho with rfl | h2
    · exact Or.inl rfl
    · exact Or.inr h2
  · rintro (rfl | h)
    · exact ⟨some a, List.mem_cons_self _ _, rfl⟩
    · exact ⟨some a, List.mem_cons_of_mem _ h, rfl⟩

theorem assembleVals_nodup (pv : Option String) (rv : List (Option String)) :
    (assembleVals pv rv).Nodup := by
  rw [assembleVals_eq]
  exact nodup_dedupFirstAux _ _

theorem assembleVals_head {x : String} (rv : List (Option String)) :
    (assembleVals (some x) rv).head? = some x := by
  rw [assembleVals_eq]
  simp only [List.filterMap_cons, id]
  simp [dedupFirstAux]

theorem assembleVals_nil (pv : Option String) : assembleVals pv [] = pv.toList := by
  cases pv <;> simp [assembleVals_eq, dedupFirstAux]

/-! ### Derived views of the main branch -/

/-- The new-secondary row the main branch would insert. -/
def newSecondaryRow (e p : Option String) (now : Nat) (s : Store)
    (pc : Contact) (others : List Contact) : Contact :=
  let s2 := pureDemote pc.id now s others
  let roster := fetchRoster s2 pc.id
  let hNE := hasNew e (knownVals pc.email (roster.map (·.email)))
  let hNP := hasNew p (knownVals pc.phoneNumber (roster.map (·.phoneNumber)))
  ⟨s2.nextId, if hNP then p else none, if hNE then e else none,
   some pc.id, .secondary, now, now, none⟩

/-- Whether the main branch inserts a new secondary. -/
def insertsNew (e p : Option String) (now : Nat) (s : Store)
    (pc : Contact) (others : List Contact) : Bool :=
  let s2 := pureDemote pc.id now s others
  let roster := fetchRoster s2 pc.id
  hasNew e (knownVals pc.email (roster.map (·.email))) ||
    hasNew p (knownVals pc.phoneNumber (roster.map (·.phoneNumber)))

/-- The roster used for response assembly by the main branch. -/
def rosterAfter (e p : Option String) (now : Nat) (s : Store)
    (pc : Contact) (others : List Contact) : List Contact :=
  let s2 := pureDemote pc.id now s others
  let roster := fetchRoster s2 pc.id
  if insertsNew e p now s pc others then roster ++ [newSecondaryRow e p now s pc others]
  else roster

/-- The store committed by the main branch. -/
def storeAfter (e p : Option String) (now : Nat) (s : Store)
    (pc : Contact) (others : List Contact) : Store :=
  let s2 := pureDemote pc.id now s others
  if insertsNew e p now s pc others then
    { rows := s2.rows ++ [newSecondaryRow e p now s pc others], nextId := s2.nextId + 1 }
  else s2

theorem mainResult_eq (e p : Option String) (now : Nat) (s : Store)
    (pc : Contact) (others : List Contact) :
    mainResult e p now s pc others =
      (storeAfter e p now s pc others,
       .ok ⟨pc.id,
            assembleVals pc.email ((rosterAfter e p now s pc others).map (·.email)),
            assembleVals pc.phoneNumber ((rosterAfter e p now s pc others).map (·.phoneNumber)),
            (rosterAfter e p now s pc others).map (·.id)⟩) := by
  unfold mainResult storeAfter rosterAfter insertsNew newSecondaryRow
  by_cases h : (hasNew e (knownVals pc.email
        ((fetchRoster (pureDemote pc.id now s others) pc.id).map (·.email))) ||
      hasNew p (knownVals pc.phoneNumber
        ((fetchRoster (pureDemote pc.id now s others) pc.id).map (·.phoneNumber)))) = true <;>
    simp only [h, if_true, if_false, Bool.false_eq_true] <;> rfl

/-! ### Invariant preservation -/

theorem pureDemote_preserves {now : Nat} {s : Store} {pc : Contact} {others : List Contact}
    (hw : WF s) (hi : ClusterInv s)
    (hpcMem : pc ∈ s.rows) (hpcNone : pc.linkedId = none)
    (hoth : ∀ q ∈ others, q ∈ s.rows ∧ q.linkPrecedence = .primary ∧ q.linkedId = none)
    (hnl : pc.id ∉ others.map (·.id)) (hnd : (others.map (·.id)).Nodup)
    (hloser : ∀ c ∈ s.rows, c.id ∈ others.map (·.id) → ∃ q ∈ others, c = q) :
    WF (pureDemote pc.id now s others) ∧ ClusterInv (pureDemote pc.id now s others) ∧
      pc ∈ (pureDemote pc.id now s others).rows ∧ pc.linkPrecedence = .primary := by
  set pids := others.map (·.id) with hpids
  have hpcPrim : pc.linkPrecedence = .primary := by
    cases h2 : pc.linkPrecedence with
    | primary => rfl
    | secondary =>
      rcases (hi pc hpcMem).2 h2 with ⟨u, _, hu, _⟩
      rw [hpcNone] at hu
      cases hu
  have hpcChain : demoteChain pc.id now pids pc = pc :=
    demoteChain_untouched hnl (fun t _ h => by rw [hpcNone] at h; cases h)
  have hrows := pureDemote_rows pc.id now s others
  have hnext := pureDemote_nextId pc.id now s others
  have hpcIn : pc ∈ (pureDemote pc.id now s others).rows := by
    rw [hrows, ← hpids]
    exact List.mem_map.mpr ⟨pc, hpcMem, hpcChain⟩
  refine ⟨⟨?_, ?_⟩, ?_, hpcIn, hpcPrim⟩
  · rw [hrows]
    exact List.pairwise_map.mpr (hw.1.imp (fun {a b} h => by
      rw [demoteChain_id, demoteChain_id]; exact h))
  · rw [hrows, hnext]
    intro c hc
    rcases List.mem_map.mp hc with ⟨d, hd, rfl⟩
    rw [demoteChain_id]
    exact hw.2 d hd
  · intro row hrow
    rw [hrows, ← hpids] at hrow
    rcases List.mem_map.mp hrow with ⟨c, hc, rfl⟩
    by_cases hcid : c.id ∈ pids
    · rcases hloser c hc hcid with ⟨q, hq, rfl⟩
      rcases hoth c hq with ⟨_, _, hqNone⟩
      rw [demoteChain_loser hnd hnl hcid hqNone]
      refine ⟨?_, ?_⟩
      · intro h
        cases h
      · intro _
        exact ⟨pc, hpcIn, rfl, hpcPrim⟩
    · cases hprec : c.linkPrecedence with
      | primary =>
        have hNone := (hi c hc).1 hprec
        rw [demoteChain_untouched hcid (fun t _ h => by rw [hNone] at h; cases h)]
        exact ⟨fun _ => hNone, fun h => by rw [hprec] at h; cases h⟩
      | secondary =>
        rcases (hi c hc).2 hprec with ⟨q, hqMem, hlk, hqPrim⟩
        by_cases hqin : q.id ∈ pids
        · rw [demoteChain_repointed hnd hnl hcid hlk hqin]
          refine ⟨?_, ?_⟩
          · intro h
            rw [show ({ c with linkedId := some pc.id, updatedAt := now } :
              Contact).linkPrecedence = c.linkPrecedence from rfl, hprec] at h
            cases h
          · intro _
            exact ⟨pc, hpcIn, rfl, hpcPrim⟩
        · have hunt : demoteChain pc.id now pids c = c := by
            refine demoteChain_untouched hcid ?_
            intro t ht h
            rw [hlk] at h
            have h2 : q.id = t := by injection h
            exact hqin (h2 ▸ ht)
          rw [hunt]
          refine ⟨?_, ?_⟩
          · intro h
            rw [hprec] at h
            cases h
          intro _
          have hqNone := (hi q hqMem).1 hqPrim
          refine ⟨q, ?_, hlk, hqPrim⟩
          rw [hrows, ← hpids]
          exact List.mem_map.mpr ⟨q, hqMem,
            demoteChain_untouched hqin (fun t _ h => by rw [hqNone] at h; cases h)⟩

theorem append_one_preserves {s2 : Store} (w : Contact)
    (hWF : WF s2) (hInv : ClusterInv s2)
    (hwid : w.id = s2.nextId)
    (hclause : (w.linkPrecedence = .primary → w.linkedId = none) ∧
      (w.linkPrecedence = .secondary →
        ∃ q ∈ s2.rows, w.linkedId = some q.id ∧ q.linkPrecedence = .primary)) :
    WF { rows := s2.rows ++ [w], nextId := s2.nextId + 1 } ∧
      ClusterInv { rows := s2.rows ++ [w], nextId := s2.nextId + 1 } := by
  refine ⟨⟨?_, ?_⟩, ?_⟩
  · refine List.pairwise_append.mpr ⟨hWF.1, List.pairwise_singleton _ _, ?_⟩
    intro a ha b hb
    rcases List.mem_singleton.mp hb with rfl
    rw [hwid]
    exact hWF.2 a ha
  · intro c hc
    rcases List.mem_append.mp hc with h | h
    · exact Nat.lt_trans (hWF.2 c h) (Nat.lt_succ_self _)
    · rcases List.mem_singleton.mp h with rfl
      rw [hwid]
      exact Nat.lt_succ_self _
  · intro c hc
    rcases List.mem_append.mp hc with h | h
    · refine ⟨(hInv c h).1, ?_⟩
      intro h2
      rcases (hInv c h).2 h2 with ⟨q, hq, hlk, hqp⟩
      exact ⟨q, List.mem_append_left _ hq, hlk, hqp⟩
    · rcases List.mem_singleton.mp h with rfl
      refine ⟨hclause.1, ?_⟩
      intro h2
      rcases hclause.2 h2 with ⟨q, hq, hlk, hqp⟩
      exact ⟨q, List.mem_append_left _ hq, hlk, hqp⟩

theorem identify_preserves {e p : Option String} {now : Nat} {s : Store}
    (hw : WF s) (hi : ClusterInv s) :
    WF (identifyContact e p now s).1 ∧ ClusterInv (identifyContact e p now s).1 ∧
      ∀ c ∈ s.rows, ∃ c2 ∈ (identifyContact e p now s).1.rows, c2.id = c.id := by
  by_cases hM : findMatches e p s = []
  · rw [identifyContact_empty_eq hM]
    have h2 := @append_one_preserves s
      (⟨s.nextId, p, e, none, .primary, now, now, none⟩ : Contact) hw hi rfl
      ⟨fun _ => rfl, fun h => by cases h⟩
    exact ⟨h2.1, h2.2, fun c hc => ⟨c, List.mem_append_left _ hc, rfl⟩⟩
  · rcases hsp : sortPrimaries (findMatches e p s) with _ | ⟨pc, others⟩
    · rw [identifyContact_nosp_eq hM hsp]
      exact ⟨hw, hi, fun c hc => ⟨c, hc, rfl⟩⟩
    · rw [identifyContact_main_eq hsp, mainResult_eq]
      dsimp only
      obtain ⟨hpcF, hothF, hnl, hnd, hloser⟩ := spFacts hw hi hsp
      obtain ⟨hWF2, hInv2, hpcIn, hpcPrim⟩ :=
        pureDemote_preserves hw hi hpcF.1 hpcF.2.2.1
          (fun q hq => ⟨(hothF q hq).1, (hothF q hq).2.1, (hothF q hq).2.2.1⟩) hnl hnd hloser
      have hpres : ∀ c ∈ s.rows,
          ∃ c2 ∈ (pureDemote pc.id now s others).rows, c2.id = c.id := by
        intro c hc
        refine ⟨demoteChain pc.id now (others.map (·.id)) c, ?_, demoteChain_id _ _ _ _⟩
        rw [pureDemote_rows]
        exact List.mem_map.mpr ⟨c, hc, rfl⟩
      unfold storeAfter
      by_cases hins : insertsNew e p now s pc others = true
      · rw [if_pos hins]
        have h2 := @append_one_preserves (pureDemote pc.id now s others)
          (newSecondaryRow e p now s pc others) hWF2 hInv2 rfl
          ⟨(fun h => nomatch h), fun _ => ⟨pc, hpcIn, rfl, hpcPrim⟩⟩
        refine ⟨h2.1, h2.2, ?_⟩
        intro c hc
        rcases hpres c hc with ⟨c2, hc2, hid⟩
        exact ⟨c2, List.mem_append_left _ hc2, hid⟩
      · rw [if_neg hins]
        exact ⟨hWF2, hInv2, hpres⟩

/-! ### Frame lemmas for consolidation -/

theorem mem_storeAfter_of_mem_demote {e p : Option String} {now : Nat} {s : Store}
    {pc : Contact} {others : List Contact} {c : Contact}
    (h : c ∈ (pureDemote pc.id now s others).rows) :
    c ∈ (storeAfter e p now s pc others).rows := by
  unfold storeAfter
  by_cases hins : insertsNew e p now s pc others = true
  · rw [if_pos hins]
    exact List.mem_append_left _ h
  · rw [if_neg hins]
    exact h

theorem main_frame {e p : Option String} {now : Nat} {s : Store}
    {pc : Contact} {others : List Contact}
    (hw : WF s) (hi : ClusterInv s)
    (hp : sortPrimaries (findMatches e p s) = pc :: others) :
    pc ∈ (storeAfter e p now s pc others).rows ∧
    (∀ c2 ∈ (storeAfter e p now s pc others).rows, c2.id = pc.id → c2 = pc) ∧
    (∀ c ∈ s.rows, c.id ∉ others.map (·.id) → (∀ q ∈ others, c.linkedId ≠ some q.id) →
      c ∈ (storeAfter e p now s pc others).rows) := by
  obtain ⟨hpcF, hothF, hnl, hnd, hloser⟩ := spFacts hw hi hp
  have hpcChain : demoteChain pc.id now (others.map (·.id)) pc = pc :=
    demoteChain_untouched hnl (fun t _ h => by rw [hpcF.2.2.1] at h; cases h)
  have hpcIn : pc ∈ (pureDemote pc.id now s others).rows := by
    rw [pureDemote_rows]
    exact List.mem_map.mpr ⟨pc, hpcF.1, hpcChain⟩
  refine ⟨mem_storeAfter_of_mem_demote hpcIn, ?_, ?_⟩
  · intro c2 hc2 hid
    have hrows : (storeAfter e p now s pc others).rows =
        (pureDemote pc.id now s others).rows ++
          (if insertsNew e p now s pc others then [newSecondaryRow e p now s pc others]
           else []) := by
      unfold storeAfter
      by_cases hins : insertsNew e p now s pc others = true
      · rw [if_pos hins, if_pos hins]
      · rw [if_neg hins, if_neg hins, List.append_nil]
    rw [hrows] at hc2
    rcases List.mem_append.mp hc2 with h | h
    · rw [pureDemote_rows] at h
      rcases List.mem_map.mp h with ⟨c, hc, rfl⟩
      rw [demoteChain_id] at hid
      have hceq : c = pc := eq_of_mem_of_id hw.1 hc hpcF.1 hid
      rw [hceq, hpcChain]
    · by_cases hins : insertsNew e p now s pc others = true
      · rw [if_pos hins] at h
        rcases List.mem_singleton.mp h with rfl
        have hidval : (newSecondaryRow e p now s pc others).id = s.nextId := by
          unfold newSecondaryRow
          exact pureDemote_nextId _ _ _ _
        rw [hidval] at hid
        exact absurd (hid ▸ hw.2 pc hpcF.1) (Nat.lt_irrefl _)
      · rw [if_neg hins] at h
        cases h
  · intro c hc hcid hlk
    refine mem_storeAfter_of_mem_demote ?_
    rw [pureDemote_rows]
    refine List.mem_map.mpr ⟨c, hc, demoteChain_untouched hcid ?_⟩
    intro t ht h
    rcases List.mem_map.mp ht with ⟨q, hq, rfl⟩
    exact hlk q hq h

theorem main_updates {e p : Option String} {now : Nat} {s : Store}
    {pc : Contact} {others : List Contact}
    (hw : WF s) (hi : ClusterInv s)
    (hp : sortPrimaries (findMatches e p s) = pc :: others) :
    (∀ q ∈ others,
      ({ q with linkPrecedence := .secondary, linkedId := some pc.id, updatedAt := now } :
        Contact) ∈ (storeAfter e p now s pc others).rows) ∧
    (∀ c ∈ s.rows, ∀ q ∈ others, c.linkedId = some q.id →
      ({ c with linkedId := some pc.id, updatedAt := now } : Contact) ∈
        (storeAfter e p now s pc others).rows) := by
  obtain ⟨hpcF, hothF, hnl, hnd, hloser⟩ := spFacts hw hi hp
  constructor
  · intro q hq
    refine mem_storeAfter_of_mem_demote ?_
    rw [pureDemote_rows]
    refine List.mem_map.mpr ⟨q, (hothF q hq).1, ?_⟩
    exact demoteChain_loser hnd hnl (List.mem_map.mpr ⟨q, hq, rfl⟩) (hothF q hq).2.2.1
  · intro c hc q hq hlk
    have hcid : c.id ∉ others.map (·.id) := by
      intro h
      rcases hloser c hc h with ⟨o, ho, rfl⟩
      rw [(hothF c ho).2.2.1] at hlk
      cases hlk
    refine mem_storeAfter_of_mem_demote ?_
    rw [pureDemote_rows]
    refine List.mem_map.mpr ⟨c, hc, ?_⟩
    exact demoteChain_repointed hnd hnl hcid hlk (List.mem_map.mpr ⟨q, hq, rfl⟩)

/-! ### Fault-injected execution for the transaction guarantee -/

/-- The consolidation loop with a fault oracle: query `k` of the
transaction fails when `oracle k = false`, aborting the loop. -/
def demoteLosersF (oracle : Nat → Bool) (sid now : Nat) :
    Nat → Store → List Contact → Except Unit (Nat × Store)
  | k, s, [] => .ok (k, s)
  | k, s, q :: qs =>
    if oracle k = false then .error () else
    if oracle (k + 1) = false then .error () else
    demoteLosersF oracle sid now (k + 2) (demoteOne sid now q.id s) qs

/-- The body of `identifyContact` between `BEGIN` and `COMMIT`, with a
fault oracle deciding which queries succeed.  Query indices: 0 `BEGIN`,
1 matching SELECT, then per branch the INSERTs/UPDATEs/SELECT/`COMMIT`
in program order. -/
def identifyContactGoF (oracle : Nat → Bool) (email phoneNumber : Option String)
    (now : Nat) (s : Store) : Except Unit (Store × IdentifyResponse) :=
  if oracle 0 = false then .error () else
  if oracle 1 = false then .error () else
  let matchingContacts := findMatches email phoneNumber s
  if matchingContacts.isEmpty then
    if oracle 2 = false then .error () else
    let newContact : Contact := ⟨s.nextId, phoneNumber, email, none, .primary, now, now, none⟩
    if oracle 3 = false then .error () else
    .ok ({ rows := s.rows ++ [newContact], nextId := s.nextId + 1 },
         ⟨newContact.id, email.toList, phoneNumber.toList, []⟩)
  else
    match sortPrimaries matchingContacts with
    | [] => .error ()
    | primaryContact :: otherPrimaries =>
      match demoteLosersF oracle primaryContact.id now 2 s otherPrimaries with
      | .error err => .error err
      | .ok (k, s2) =>
        if oracle k = false then .error () else
        let secondaryContacts := fetchRoster s2 primaryContact.id
        let hasNewEmail := hasNew email
          (knownVals primaryContact.email (secondaryContacts.map (·.email)))
        let hasNewPhone := hasNew phoneNumber
          (knownVals primaryContact.phoneNumber (secondaryContacts.map (·.phoneNumber)))
        if hasNewEmail || hasNewPhone then
          if oracle (k + 1) = false then .error () else
          let newSecondary : Contact :=
            ⟨s2.nextId, if hasNewPhone then phoneNumber else none,
             if hasNewEmail then email else none,
             some primaryContact.id, .secondary, now, now, none⟩
          if oracle (k + 2) = false then .error () else
          .ok ({ rows := s2.rows ++ [newSecondary], nextId := s2.nextId + 1 },
               ⟨primaryContact.id,
                assembleVals primaryContact.email
                  ((secondaryContacts ++ [newSecondary]).map (·.email)),
                assembleVals primaryContact.phoneNumber
                  ((secondaryContacts ++ [newSecondary]).map (·.phoneNumber)),
                (secondaryContacts ++ [newSecondary]).map (·.id)⟩)
        else
          if oracle (k + 1) = false then .error () else
          .ok (s2,
               ⟨primaryContact.id,
                assembleVals primaryContact.email (secondaryContacts.map (·.email)),
                assembleVals primaryContact.phoneNumber (secondaryContacts.map (·.phoneNumber)),
                secondaryContacts.map (·.id)⟩)

/-- `identifyContact` under the fault oracle: on any failure the `catch`
block issues `ROLLBACK`, so the visible store is the pre-transaction
store and the error is re-thrown to the caller. -/
def identifyContactF (oracle : Nat → Bool) (email phoneNumber : Option String)
    (now : Nat) (s : Store) : Store × Except Unit IdentifyResponse :=
  match identifyContactGoF oracle email phoneNumber now s with
  | .ok (s2, r) => (s2, .ok r)
  | .error err => (s, .error err)

/-- C8: if any step inside the transactional core fails, the visible
store after the call is exactly the input store (full rollback, no
partial demotion, re-pointing, or insert), and the error is what the
caller receives; a failure of the very first query always surfaces as an
error, never as a silent retry. -/
theorem claim8_rollback (oracle : Nat → Bool) (e p : Option String) (now : Nat)
    (s : Store) (err : Unit) :
    ((identifyContactF oracle e p now s).2 = .error err →
      (identifyContactF oracle e p now s).1 = s) ∧
    (oracle 0 = false → (identifyContactF oracle e p now s).2 = .error ()) := by
  constructor
  · intro h
    unfold identifyContactF at h ⊢
    cases h2 : identifyContactGoF oracle e p now s with
    | ok v =>
      rw [h2] at h
      exact absurd h (by simp)
    | error err2 => simp only [h2]
  · intro h
    unfold identifyContactF identifyContactGoF
    rw [h]
    rfl

/-- Witness for C8 at a concrete oracle, input and store. -/
theorem claim8_rollback_witness :
    (identifyContactF (fun _ => false) (some "a@x.com") none 0
      ⟨[⟨1, some "111", some "a@x.com", none, .primary, 0, 0, none⟩], 2⟩).1 =
      ⟨[⟨1, some "111", some "a@x.com", none, .primary, 0, 0, none⟩], 2⟩ :=
  (claim8_rollback (fun _ => false) (some "a@x.com") none 0
      ⟨[⟨1, some "111", some "a@x.com", none, .primary, 0, 0, none⟩], 2⟩ ()).1
    ((claim8_rollback (fun _ => false) (some "a@x.com") none 0
      ⟨[⟨1, some "111", some "a@x.com", none, .primary, 0, 0, none⟩], 2⟩ ()).2 rfl)

/-! ### Concrete stores for witnesses and counterexamples -/

/-- A valid store whose second row is a secondary of the first: matching
only the secondary's email exercises the zero-primaries path. -/
def bugStore : Store :=
  ⟨[⟨1, some "111", some "a@x.com", none, .primary, 0, 0, none⟩,
    ⟨2, none, some "b@x.com", some 1, .secondary, 1, 1, none⟩], 3⟩

/-- A valid store with two primary clusters (ids 1 and 2) where the second
cluster has a dependent secondary (id 3): matching email of the first and
phone of the second exercises consolidation. -/
def wstore : Store :=
  ⟨[⟨1, some "111", some "a@x.com", none, .primary, 0, 0, none⟩,
    ⟨2, some "222", some "b@y.com", none, .primary, 1, 1, none⟩,
    ⟨3, none, some "c@z.com", some 2, .secondary, 2, 2, none⟩], 4⟩

/-- C1 (code bug): on a non-empty match set consisting only of secondary
rows, the operation does not fetch the linked primary; it throws (reading
`primaryContacts[0].id` of `undefined`) and the transaction is rolled
back, although the matched secondary does carry the `linkedId` of an
existing primary the specification says should be returned. -/
theorem claim1_secondary_only_crash :
    findMatches (some "b@x.com") none bugStore ≠ [] ∧
    (∀ c ∈ findMatches (some "b@x.com") none bugStore,
      c.linkPrecedence = .secondary ∧ c.linkedId = some 1) ∧
    (∃ q ∈ bugStore.rows, q.id = 1 ∧ q.linkPrecedence = .primary) ∧
    identifyContact (some "b@x.com") none 5 bugStore = (bugStore, .error ()) := by
  decide

/-- C4 counterexample: a call whose match set is non-empty (one secondary
row) and whose submitted phone is genuinely new, yet no row is inserted —
the call fails and leaves the store unchanged. -/
theorem claim4_insert_cex :
    findMatches (some "b@x.com") (some "222") bugStore ≠ [] ∧
    (∀ c ∈ bugStore.rows, c.phoneNumber ≠ some "222") ∧
    (identifyContact (some "b@x.com") (some "222") 5 bugStore).1 = bugStore ∧
    (identifyContact (some "b@x.com") (some "222") 5 bugStore).2 = .error () := by
  decide

/-! ### The matcher (C6) -/

theorem matchesQuery_iff {e p : Option String} {c : Contact} :
    matchesQuery e p c = true ↔
      ((∃ x, e = some x ∧ c.email = some x) ∨ (∃ y, p = some y ∧ c.phoneNumber = some y)) := by
  unfold matchesQuery
  cases e <;> cases p <;> simp [beq_iff_eq]

theorem findMatches_pairwise_lex {e p : Option String} {s : Store} (hw : WF s) :
    (findMatches e p s).Pairwise lexLT := by
  unfold findMatches
  exact orderByCreatedAtAsc_pairwise_lex ((hw.1.imp (fun h => fun _ => h)).filter _)

/-- C6: the matcher returns exactly the rows whose email equals the given
email (when given) or whose phone equals the given phone (when given),
ordered by `createdAt` ascending with ties broken by `id` ascending; the
membership condition does not involve `deletedAt`, so soft-deleted rows
are not filtered out, and when nothing matches the result is empty. -/
theorem claim6_matcher {e p : Option String} {s : Store} (hw : WF s) :
    (∀ c, c ∈ findMatches e p s ↔ c ∈ s.rows ∧
      ((∃ x, e = some x ∧ c.email = some x) ∨ (∃ y, p = some y ∧ c.phoneNumber = some y))) ∧
    (findMatches e p s).Pairwise lexLT := by
  constructor
  · intro c
    rw [mem_findMatches, matchesQuery_iff]
  · exact findMatches_pairwise_lex hw

/-- Witness for C6 on a concrete valid store. -/
theorem claim6_matcher_witness :
    (∀ c, c ∈ findMatches (some "a@x.com") (some "222") wstore ↔ c ∈ wstore.rows ∧
      ((∃ x, (some "a@x.com" : Option String) = some x ∧ c.email = some x) ∨
       (∃ y, (some "222" : Option String) = some y ∧ c.phoneNumber = some y))) ∧
    (findMatches (some "a@x.com") (some "222") wstore).Pairwise lexLT :=
  claim6_matcher (by decide)

/-! ### The empty-match branch (C7) -/

/-- C7: on an empty match set a single new primary contact holding the
given email/phone is created (`linkedId` null), and the response is its
id, the singleton email list, the singleton phone list, and no
secondaries; nothing else happens to the store. -/
theorem claim7_new_primary {e p : Option String} {now : Nat} {s : Store}
    (h : findMatches e p s = []) :
    identifyContact e p now s =
      ({ rows := s.rows ++ [⟨s.nextId, p, e, none, .primary, now, now, none⟩],
         nextId := s.nextId + 1 },
       .ok ⟨s.nextId, e.toList, p.toList, []⟩) :=
  identifyContact_empty_eq h

/-- Witness for C7: a fresh email/phone pair against a concrete store. -/
theorem claim7_new_primary_witness :
    identifyContact (some "n@w.com") (some "999") 7 wstore =
      ({ rows := wstore.rows ++ [⟨wstore.nextId, some "999", some "n@w.com", none,
           .primary, 7, 7, none⟩],
         nextId := wstore.nextId + 1 },
       .ok ⟨wstore.nextId, [("n@w.com" : String)], [("999" : String)], []⟩) :=
  claim7_new_primary (by decide)

/-! ### Consolidation claims (C2, C3, C10) -/

theorem sortPrimaries_pairwise_lex {e p : Option String} {s : Store} (hw : WF s) :
    (sortPrimaries (findMatches e p s)).Pairwise lexLT := by
  unfold sortPrimaries
  refine orderByCreatedAtAsc_pairwise_lex (List.Pairwise.filter _ ?_)
  refine (findMatches_pairwise_lex hw).imp ?_
  intro a b h heq
  rcases h with h | h
  · omega
  · exact h.2

theorem identifyContact_fst_main {e p : Option String} {now : Nat} {s : Store}
    {pc : Contact} {others : List Contact}
    (hp : sortPrimaries (findMatches e p s) = pc :: others) :
    (identifyContact e p now s).1 = storeAfter e p now s pc others := by
  rw [identifyContact_main_eq hp, mainResult_eq]

theorem identifyContact_snd_main {e p : Option String} {now : Nat} {s : Store}
    {pc : Contact} {others : List Contact}
    (hp : sortPrimaries (findMatches e p s) = pc :: others) :
    (identifyContact e p now s).2 =
      .ok ⟨pc.id,
           assembleVals pc.email ((rosterAfter e p now s pc others).map (·.email)),
           assembleVals pc.phoneNumber ((rosterAfter e p now s pc others).map (·.phoneNumber)),
           (rosterAfter e p now s pc others).map (·.id)⟩ := by
  rw [identifyContact_main_eq hp, mainResult_eq]

/-- C2: with several matched primaries, the primaries are ordered by
`createdAt` ascending with ties broken by `id` ascending, the first is
the surviving primary (its id is the returned `primaryContactId`), every
losing primary's row is rewritten to a secondary linked to the survivor,
and every row that pointed at a losing primary is re-pointed at the
survivor, all in the same call. -/
theorem claim2_consolidation {e p : Option String} {now : Nat} {s : Store}
    {pc : Contact} {others : List Contact}
    (hw : WF s) (hi : ClusterInv s)
    (hp : sortPrimaries (findMatches e p s) = pc :: others) (hne : others ≠ []) :
    (pc :: others).Pairwise lexLT ∧
    respPrimaryId (identifyContact e p now s).2 = some pc.id ∧
    (∀ q ∈ others,
      ({ q with linkPrecedence := .secondary, linkedId := some pc.id, updatedAt := now } :
        Contact) ∈ (identifyContact e p now s).1.rows) ∧
    (∀ c ∈ s.rows, ∀ q ∈ others, c.linkedId = some q.id →
      ({ c with linkedId := some pc.id, updatedAt := now } : Contact) ∈
        (identifyContact e p now s).1.rows) := by
  have hupd := @main_updates e p now s pc others hw hi hp
  refine ⟨?_, ?_, ?_, ?_⟩
  · rw [← hp]
    exact sortPrimaries_pairwise_lex hw
  · rw [identifyContact_snd_main hp]
    rfl
  · intro q hq
    rw [identifyContact_fst_main hp]
    exact hupd.1 q hq
  · intro c hc q hq hlk
    rw [identifyContact_fst_main hp]
    exact hupd.2 c hc q hq hlk

/-- Witness for C2: merging the two primary clusters of `wstore`. -/
theorem claim2_consolidation_witness :
    ((⟨1, some "111", some "a@x.com", none, .primary, 0, 0, none⟩ : Contact) ::
        [⟨2, some "222", some "b@y.com", none, .primary, 1, 1, none⟩]).Pairwise lexLT ∧
    respPrimaryId (identifyContact (some "a@x.com") (some "222") 9 wstore).2 = some 1 ∧
    (∀ q ∈ [(⟨2, some "222", some "b@y.com", none, .primary, 1, 1, none⟩ : Contact)],
      ({ q with linkPrecedence := .secondary, linkedId := some 1, updatedAt := 9 } :
        Contact) ∈ (identifyContact (some "a@x.com") (some "222") 9 wstore).1.rows) ∧
    (∀ c ∈ wstore.rows,
      ∀ q ∈ [(⟨2, some "222", some "b@y.com", none, .primary, 1, 1, none⟩ : Contact)],
      c.linkedId = some q.id →
      ({ c with linkedId := some 1, updatedAt := 9 } : Contact) ∈
        (identifyContact (some "a@x.com") (some "222") 9 wstore).1.rows) :=
  claim2_consolidation (by decide) (by decide) (by decide) (by decide)

/-- C3: from any store satisfying the cluster invariants and any valid
input, the store after the call again satisfies them — every primary has
a null `linkedId`, every secondary links directly to an existing primary
row (no chains through demoted primaries or other secondaries), ids stay
unique — and no row present before the call has been removed. -/
theorem claim3_invariants {e p : Option String} {now : Nat} {s : Store}
    (hw : WF s) (hi : ClusterInv s) (hv : e.isSome ∨ p.isSome) :
    ClusterInv (identifyContact e p now s).1 ∧ WF (identifyContact e p now s).1 ∧
      ∀ c ∈ s.rows, ∃ c2 ∈ (identifyContact e p now s).1.rows, c2.id = c.id := by
  obtain ⟨h1, h2, h3⟩ := @identify_preserves e p now s hw hi
  exact ⟨h2, h1, h3⟩

/-- Witness for C3: the consolidating call on `wstore`. -/
theorem claim3_invariants_witness :
    ClusterInv (identifyContact (some "a@x.com") (some "222") 9 wstore).1 ∧
      WF (identifyContact (some "a@x.com") (some "222") 9 wstore).1 ∧
      ∀ c ∈ wstore.rows,
        ∃ c2 ∈ (identifyContact (some "a@x.com") (some "222") 9 wstore).1.rows,
          c2.id = c.id :=
  claim3_invariants (by decide) (by decide) (Or.inl (by decide))

/-- C10: the surviving primary's own row is never written by a
consolidating call — the untouched record `pc` itself is still present,
and any result row carrying its id is exactly `pc` (same `linkPrecedence`,
`linkedId`, `email`, `phone` and `updatedAt`); moreover every pre-existing
row that is neither a losing primary nor points at one is still present
unchanged. -/
theorem claim10_survivor_frame {e p : Option String} {now : Nat} {s : Store}
    {pc : Contact} {others : List Contact}
    (hw : WF s) (hi : ClusterInv s)
    (hp : sortPrimaries (findMatches e p s) = pc :: others) (hne : others ≠ []) :
    pc ∈ (identifyContact e p now s).1.rows ∧
    (∀ c2 ∈ (identifyContact e p now s).1.rows, c2.id = pc.id → c2 = pc) ∧
    (∀ c ∈ s.rows, c.id ∉ others.map (·.id) → (∀ q ∈ others, c.linkedId ≠ some q.id) →
      c ∈ (identifyContact e p now s).1.rows) := by
  have hfr := @main_frame e p now s pc others hw hi hp
  rw [identifyContact_fst_main hp]
  exact hfr

/-- Witness for C10 on `wstore`. -/
theorem claim10_survivor_frame_witness :
    (⟨1, some "111", some "a@x.com", none, .primary, 0, 0, none⟩ : Contact) ∈
      (identifyContact (some "a@x.com") (some "222") 9 wstore).1.rows ∧
    (∀ c2 ∈ (identifyContact (some "a@x.com") (some "222") 9 wstore).1.rows,
      c2.id = (⟨1, some "111", some "a@x.com", none, .primary, 0, 0, none⟩ : Contact).id →
      c2 = ⟨1, some "111", some "a@x.com", none, .primary, 0, 0, none⟩) ∧
    (∀ c ∈ wstore.rows,
      c.id ∉ ([(⟨2, some "222", some "b@y.com", none, .primary, 1, 1, none⟩ : Contact)]).map
        (·.id) →
      (∀ q ∈ [(⟨2, some "222", some "b@y.com", none, .primary, 1, 1, none⟩ : Contact)],
        c.linkedId ≠ some q.id) →
      c ∈ (identifyContact (some "a@x.com") (some "222") 9 wstore).1.rows) :=
  claim10_survivor_frame (by decide) (by decide) (by decide) (by decide)

/-! ### New-information detection (C4) and response assembly (C5) -/

theorem hasNew_iff {v : Option String} {known : List String} :
    hasNew v known = true ↔ ∃ x, v = some x ∧ x ∉ known := by
  cases v <;> simp [hasNew]

/-- C4 (amended to calls whose match set contains at least one primary):
a new row is inserted iff the submitted email is non-null and not among
the known emails of the primary and its (post-consolidation) roster, or
likewise for the phone; the inserted row is a secondary linked to the
surviving primary whose email/phone fields hold only the genuinely-new
values (null otherwise); when neither value is new nothing is inserted. -/
theorem claim4_new_secondary {e p : Option String} {now : Nat} {s : Store}
    {pc : Contact} {others : List Contact}
    (hp : sortPrimaries (findMatches e p s) = pc :: others) :
    (insertsNew e p now s pc others = true ↔
      ((∃ x, e = some x ∧ x ∉ knownVals pc.email
          ((fetchRoster (pureDemote pc.id now s others) pc.id).map (·.email))) ∨
       (∃ y, p = some y ∧ y ∉ knownVals pc.phoneNumber
          ((fetchRoster (pureDemote pc.id now s others) pc.id).map (·.phoneNumber))))) ∧
    (insertsNew e p now s pc others = true →
      (identifyContact e p now s).1.rows =
        (pureDemote pc.id now s others).rows ++ [newSecondaryRow e p now s pc others] ∧
      (newSecondaryRow e p now s pc others).linkPrecedence = .secondary ∧
      (newSecondaryRow e p now s pc others).linkedId = some pc.id ∧
      (newSecondaryRow e p now s pc others).email =
        (if hasNew e (knownVals pc.email
            ((fetchRoster (pureDemote pc.id now s others) pc.id).map (·.email)))
         then e else none) ∧
      (newSecondaryRow e p now s pc others).phoneNumber =
        (if hasNew p (knownVals pc.phoneNumber
            ((fetchRoster (pureDemote pc.id now s others) pc.id).map (·.phoneNumber)))
         then p else none)) ∧
    (insertsNew e p now s pc others = false →
      (identifyContact e p now s).1 = pureDemote pc.id now s others) := by
  refine ⟨?_, ?_, ?_⟩
  · unfold insertsNew
    rw [Bool.or_eq_true, hasNew_iff, hasNew_iff]
  · intro hins
    refine ⟨?_, rfl, rfl, rfl, rfl⟩
    rw [identifyContact_fst_main hp]
    unfold storeAfter
    rw [if_pos hins]
  · intro hins
    rw [identifyContact_fst_main hp]
    unfold storeAfter
    rw [if_neg (by rw [hins]; exact Bool.false_ne_true)]

/-- Witness for C4: submitting a known email with a new phone. -/
theorem claim4_new_secondary_witness :
    (insertsNew (some "a@x.com") (some "444") 9 wstore
        ⟨1, some "111", some "a@x.com", none, .primary, 0, 0, none⟩ [] = true ↔
      ((∃ x, (some "a@x.com" : Option String) = some x ∧ x ∉ knownVals
          (some "a@x.com")
          ((fetchRoster (pureDemote 1 9 wstore []) 1).map (·.email))) ∨
       (∃ y, (some "444" : Option String) = some y ∧ y ∉ knownVals (some "111")
          ((fetchRoster (pureDemote 1 9 wstore []) 1).map (·.phoneNumber))))) ∧
    (insertsNew (some "a@x.com") (some "444") 9 wstore
        ⟨1, some "111", some "a@x.com", none, .primary, 0, 0, none⟩ [] = true →
      (identifyContact (some "a@x.com") (some "444") 9 wstore).1.rows =
        (pureDemote 1 9 wstore []).rows ++
          [newSecondaryRow (some "a@x.com") (some "444") 9 wstore
            ⟨1, some "111", some "a@x.com", none, .primary, 0, 0, none⟩ []] ∧
      (newSecondaryRow (some "a@x.com") (some "444") 9 wstore
        ⟨1, some "111", some "a@x.com", none, .primary, 0, 0, none⟩ []).linkPrecedence =
          .secondary ∧
      (newSecondaryRow (some "a@x.com") (some "444") 9 wstore
        ⟨1, some "111", some "a@x.com", none, .primary, 0, 0, none⟩ []).linkedId = some 1 ∧
      (newSecondaryRow (some "a@x.com") (some "444") 9 wstore
        ⟨1, some "111", some "a@x.com", none, .primary, 0, 0, none⟩ []).email =
        (if hasNew (some "a@x.com") (knownVals (some "a@x.com")
            ((fetchRoster (pureDemote 1 9 wstore []) 1).map (·.email)))
         then some "a@x.com" else none) ∧
      (newSecondaryRow (some "a@x.com") (some "444") 9 wstore
        ⟨1, some "111", some "a@x.com", none, .primary, 0, 0, none⟩ []).phoneNumber =
        (if hasNew (some "444") (knownVals (some "111")
            ((fetchRoster (pureDemote 1 9 wstore []) 1).map (·.phoneNumber)))
         then some "444" else none)) ∧
    (insertsNew (some "a@x.com") (some "444") 9 wstore
        ⟨1, some "111", some "a@x.com", none, .primary, 0, 0, none⟩ [] = false →
      (identifyContact (some "a@x.com") (some "444") 9 wstore).1 =
        pureDemote 1 9 wstore []) :=
  claim4_new_secondary (by decide)

/-- C5: the returned email list (and likewise phones) is the
first-occurrence deduplication of the non-null values over the primary
followed by the roster in fetch order (any just-created row last), so it
is duplicate-free, contains exactly those values, and starts with the
primary's own value whenever that is non-null; `secondaryContactIds` is
the roster's ids in the same order. -/
theorem claim5_assembly {e p : Option String} {now : Nat} {s : Store}
    {pc : Contact} {others : List Contact}
    (hp : sortPrimaries (findMatches e p s) = pc :: others) :
    ∃ r : IdentifyResponse, (identifyContact e p now s).2 = .ok r ∧
      ∃ roster : List Contact,
        (roster = fetchRoster (pureDemote pc.id now s others) pc.id ∨
         ∃ w, roster = fetchRoster (pureDemote pc.id now s others) pc.id ++ [w]) ∧
        r.emails = assembleVals pc.email (roster.map (·.email)) ∧
        r.phoneNumbers = assembleVals pc.phoneNumber (roster.map (·.phoneNumber)) ∧
        r.secondaryContactIds = roster.map (·.id) ∧
        r.emails.Nodup ∧ r.phoneNumbers.Nodup ∧
        (∀ v, v ∈ r.emails ↔ (pc.email = some v ∨ some v ∈ roster.map (·.email))) ∧
        (∀ v, v ∈ r.phoneNumbers ↔
          (pc.phoneNumber = some v ∨ some v ∈ roster.map (·.phoneNumber))) ∧
        (∀ x, pc.email = some x → r.emails.head? = some x) ∧
        (∀ y, pc.phoneNumber = some y → r.phoneNumbers.head? = some y) := by
  refine ⟨_, identifyContact_snd_main hp, rosterAfter e p now s pc others,
    ?_, rfl, rfl, rfl, assembleVals_nodup _ _, assembleVals_nodup _ _,
    fun v => mem_assembleVals, fun v => mem_assembleVals, ?_, ?_⟩
  · unfold rosterAfter
    by_cases hins : insertsNew e p now s pc others = true
    · rw [if_pos hins]
      exact Or.inr ⟨newSecondaryRow e p now s pc others, rfl⟩
    · rw [if_neg hins]
      exact Or.inl rfl
  · intro x hx
    rw [hx]
    exact assembleVals_head _
  · intro y hy
    rw [hy]
    exact assembleVals_head _

/-- Witness for C5 on a concrete consolidating call. -/
theorem claim5_assembly_witness :
    ∃ r : IdentifyResponse,
      (identifyContact (some "a@x.com") (some "222") 9 wstore).2 = .ok r ∧
      ∃ roster : List Contact,
        (roster = fetchRoster (pureDemote 1 9 wstore
            [⟨2, some "222", some "b@y.com", none, .primary, 1, 1, none⟩]) 1 ∨
         ∃ w, roster = fetchRoster (pureDemote 1 9 wstore
            [⟨2, some "222", some "b@y.com", none, .primary, 1, 1, none⟩]) 1 ++ [w]) ∧
        r.emails = assembleVals (some "a@x.com") (roster.map (·.email)) ∧
        r.phoneNumbers = assembleVals (some "111") (roster.map (·.phoneNumber)) ∧
        r.secondaryContactIds = roster.map (·.id) ∧
        r.emails.Nodup ∧ r.phoneNumbers.Nodup ∧
        (∀ v, v ∈ r.emails ↔
          (some "a@x.com" = some v ∨ some v ∈ roster.map (·.email))) ∧
        (∀ v, v ∈ r.phoneNumbers ↔
          (some "111" = some v ∨ some v ∈ roster.map (·.phoneNumber))) ∧
        (∀ x, (some "a@x.com" : Option String) = some x → r.emails.head? = some x) ∧
        (∀ y, (some "111" : Option String) = some y → r.phoneNumbers.head? = some y) :=
  @claim5_assembly (some "a@x.com") (some "222") 9 wstore
    ⟨1, some "111", some "a@x.com", none, .primary, 0, 0, none⟩
    [⟨2, some "222", some "b@y.com", none, .primary, 1, 1, none⟩] (by decide)

/-! ### Helper lemmas for idempotence -/

theorem filter_map_pred (f : Contact → Contact) (pr : Contact → Bool) (l : List Contact) :
    (l.map f).filter pr = (l.filter (fun a => pr (f a))).map f := by
  induction l with
  | nil => rfl
  | cons x xs ih =>
    by_cases h : pr (f x) <;> simp [List.filter_cons, h, ih]

theorem map_id_on {l : List Contact} {f : Contact → Contact} (h : ∀ a ∈ l, f a = a) :
    l.map f = l := by
  induction l with
  | nil => rfl
  | cons x xs ih =>
    rw [List.map_cons, h x (List.mem_cons_self _ _),
      ih (fun a ha => h a (List.mem_cons_of_mem x ha))]

theorem filter_none {pr : Contact → Bool} {l : List Contact}
    (h : ∀ a ∈ l, pr a = false) : l.filter pr = [] := by
  induction l with
  | nil => rfl
  | cons x xs ih =>
    rw [List.filter_cons, h x (List.mem_cons_self _ _)]
    exact ih (fun a ha => h a (List.mem_cons_of_mem x ha))

theorem mem_knownVals {pv : Option String} {l : List (Option String)} {x : String} :
    x ∈ knownVals pv l ↔ pv = some x ∨ some x ∈ l := by
  unfold knownVals
  rw [List.mem_filterMap]
  constructor
  · rintro ⟨o, ho, rfl⟩
    rcases List.mem_cons.mp ho with rfl | h
    · exact Or.inl rfl
    · exact Or.inr h
  · rintro (rfl | h)
    · exact ⟨some x, List.mem_cons_self _ _, rfl⟩
    · exact ⟨some x, List.mem_cons_of_mem _ h, rfl⟩

theorem contains_eq_mem (l : List String) (x : String) : l.contains x = decide (x ∈ l) := by
  induction l with
  | nil => rfl
  | cons y ys ih =>
    by_cases h : x = y
    · subst h
      simp
    · simp [List.contains_cons, ih, h]

theorem hasNew_false_iff {x : String} {known : List String} :
    hasNew (some x) known = false ↔ x ∈ known := by
  rw [show hasNew (some x) known = !(known.contains x) from rfl, contains_eq_mem]
  by_cases h : x ∈ known <;> simp [h]

theorem hasNew_self (v : Option String) (l : List (Option String)) :
    hasNew v (knownVals v l) = false := by
  cases v with
  | none => rfl
  | some x =>
    rw [hasNew_false_iff, mem_knownVals]
    exact Or.inl rfl

theorem linked_lt {s : Store} (hw : WF s) (hi : ClusterInv s) :
    ∀ c ∈ s.rows, ∀ t, c.linkedId = some t → t < s.nextId := by
  intro c hc t ht
  cases hprec : c.linkPrecedence with
  | primary =>
    rw [(hi c hc).1 hprec] at ht
    cases ht
  | secondary =>
    rcases (hi c hc).2 hprec with ⟨q, hq, hlk, _⟩
    rw [hlk] at ht
    have h2 : q.id = t := by injection ht
    exact h2 ▸ hw.2 q hq

theorem storeAfter_rows (e p : Option String) (now : Nat) (s : Store)
    (pc : Contact) (others : List Contact) :
    (storeAfter e p now s pc others).rows =
      (pureDemote pc.id now s others).rows ++
        (if insertsNew e p now s pc others then [newSecondaryRow e p now s pc others]
         else []) := by
  unfold storeAfter
  by_cases hins : insertsNew e p now s pc others = true
  · rw [if_pos hins, if_pos hins]
  · rw [if_neg hins, if_neg hins, List.append_nil]

theorem matchesQuery_self {e p : Option String} (hv : e.isSome ∨ p.isSome)
    (n now1 now2 : Nat) :
    matchesQuery e p ⟨n, p, e, none, .primary, now1, now2, none⟩ = true := by
  unfold matchesQuery
  cases e <;> cases p <;> simp_all

theorem rosterAfter_no_insert {e p : Option String} {now : Nat} {s : Store}
    {pc : Contact} {others : List Contact}
    (h : insertsNew e p now s pc others = false) :
    rosterAfter e p now s pc others = fetchRoster (pureDemote pc.id now s others) pc.id := by
  unfold rosterAfter
  rw [if_neg (by rw [h]; exact Bool.false_ne_true)]

theorem storeAfter_no_insert {e p : Option String} {now : Nat} {s : Store}
    {pc : Contact} {others : List Contact}
    (h : insertsNew e p now s pc others = false) :
    storeAfter e p now s pc others = pureDemote pc.id now s others := by
  unfold storeAfter
  rw [if_neg (by rw [h]; exact Bool.false_ne_true)]

/-- Re-querying the roster of the survivor after the call returns exactly
the roster the call used for assembly (including a just-inserted row). -/
theorem second_roster (e p : Option String) (now1 : Nat) (s : Store)
    (pc : Contact) (others : List Contact) :
    fetchRoster (storeAfter e p now1 s pc others) pc.id =
      rosterAfter e p now1 s pc others := by
  unfold fetchRoster
  rw [storeAfter_rows, List.filter_append]
  unfold rosterAfter
  by_cases hins : insertsNew e p now1 s pc others = true
  · rw [if_pos hins, if_pos hins]
    have h1 : (newSecondaryRow e p now1 s pc others).linkedId = some pc.id := rfl
    rw [show ([newSecondaryRow e p now1 s pc others].filter
        (fun c => c.linkedId == some pc.id)) = [newSecondaryRow e p now1 s pc others] by
      simp [List.filter_cons, h1]]
    rfl
  · rw [if_neg hins, if_neg hins]
    rw [show ([] : List Contact).filter (fun c => c.linkedId == some pc.id) = [] from rfl]
    rw [List.append_nil]
    rfl

/-- After a successful consolidating call, resubmitting the same input
finds nothing new: both the email and the phone are already known to the
survivor's cluster. -/
theorem second_insertsNew_false (e p : Option String) (now1 now2 : Nat) (s : Store)
    (pc : Contact) (others : List Contact) :
    insertsNew e p now2 (storeAfter e p now1 s pc others) pc [] = false := by
  unfold insertsNew
  rw [show pureDemote pc.id now2 (storeAfter e p now1 s pc others) [] =
      storeAfter e p now1 s pc others from rfl]
  dsimp only
  rw [second_roster]
  refine Bool.or_eq_false_iff.mpr ⟨?_, ?_⟩
  · cases he : e with
    | none => rfl
    | some x =>
      subst he
      rw [hasNew_false_iff, mem_knownVals]
      by_cases hNE1 : hasNew (some x) (knownVals pc.email
          ((fetchRoster (pureDemote pc.id now1 s others) pc.id).map (·.email))) = true
      · have hins : insertsNew (some x) p now1 s pc others = true := by
          unfold insertsNew
          dsimp only
          rw [hNE1, Bool.true_or]
        right
        unfold rosterAfter
        dsimp only
        rw [if_pos hins, List.map_append]
        refine List.mem_append_right _ ?_
        have hNS : (newSecondaryRow (some x) p now1 s pc others).email = some x := by
          unfold newSecondaryRow
          dsimp only
          rw [if_pos hNE1]
        rw [show ([newSecondaryRow (some x) p now1 s pc others].map (·.email)) =
            [(newSecondaryRow (some x) p now1 s pc others).email] from rfl, hNS]
        exact List.mem_singleton.mpr rfl
      · have hNE0 : hasNew (some x) (knownVals pc.email
            ((fetchRoster (pureDemote pc.id now1 s others) pc.id).map (·.email))) = false := by
          revert hNE1
          cases hasNew (some x) (knownVals pc.email
            ((fetchRoster (pureDemote pc.id now1 s others) pc.id).map (·.email))) <;> simp
        have hmem := mem_knownVals.mp (hasNew_false_iff.mp hNE0)
        unfold rosterAfter
        dsimp only
        by_cases hins : insertsNew (some x) p now1 s pc others = true
        · rw [if_pos hins, List.map_append]
          rcases hmem with h | h
          · exact Or.inl h
          · exact Or.inr (List.mem_append_left _ h)
        · rw [if_neg hins]
          exact hmem
  · cases hpn : p with
    | none => rfl
    | some y =>
      subst hpn
      rw [hasNew_false_iff, mem_knownVals]
      by_cases hNP1 : hasNew (some y) (knownVals pc.phoneNumber
          ((fetchRoster (pureDemote pc.id now1 s others) pc.id).map (·.phoneNumber))) = true
      · have hins : insertsNew e (some y) now1 s pc others = true := by
          unfold insertsNew
          dsimp only
          rw [hNP1, Bool.or_true]
        right
        unfold rosterAfter
        dsimp only
        rw [if_pos hins, List.map_append]
        refine List.mem_append_right _ ?_
        have hNS : (newSecondaryRow e (some y) now1 s pc others).phoneNumber = some y := by
          unfold newSecondaryRow
          dsimp only
          rw [if_pos hNP1]
        rw [show ([newSecondaryRow e (some y) now1 s pc others].map (·.phoneNumber)) =
            [(newSecondaryRow e (some y) now1 s pc others).phoneNumber] from rfl, hNS]
        exact List.mem_singleton.mpr rfl
      · have hNP0 : hasNew (some y) (knownVals pc.phoneNumber
            ((fetchRoster (pureDemote pc.id now1 s others) pc.id).map (·.phoneNumber))) =
            false := by
          revert hNP1
          cases hasNew (some y) (knownVals pc.phoneNumber
            ((fetchRoster (pureDemote pc.id now1 s others) pc.id).map (·.phoneNumber))) <;> simp
        have hmem := mem_knownVals.mp (hasNew_false_iff.mp hNP0)
        unfold rosterAfter
        dsimp only
        by_cases hins : insertsNew e (some y) now1 s pc others = true
        · rw [if_pos hins, List.map_append]
          rcases hmem with h | h
          · exact Or.inl h
          · exact Or.inr (List.mem_append_left _ h)
        · rw [if_neg hins]
          exact hmem

/-- After a consolidating call commits, the same submission matches
exactly one primary: the survivor. -/
theorem second_primaries {e p : Option String} {now1 : Nat} {s : Store}
    {pc : Contact} {others : List Contact}
    (hw : WF s) (hi : ClusterInv s)
    (hp : sortPrimaries (findMatches e p s) = pc :: others) :
    sortPrimaries (findMatches e p (storeAfter e p now1 s pc others)) = [pc] := by
  obtain ⟨hpcF, hothF, hnl, hnd, hloser⟩ := spFacts hw hi hp
  have hrow : ∀ c ∈ s.rows,
      (matchesQuery e p (demoteChain pc.id now1 (others.map (·.id)) c) &&
        isPrimaryB (demoteChain pc.id now1 (others.map (·.id)) c)) =
      ((matchesQuery e p c && isPrimaryB c) && !(decide (c.id ∈ others.map (·.id)))) := by
    intro c hc
    rw [matchesQuery_demoteChain]
    by_cases hcid : c.id ∈ others.map (·.id)
    · rw [decide_eq_true hcid, Bool.not_true, Bool.and_false]
      rcases hloser c hc hcid with ⟨o, ho, rfl⟩
      rw [demoteChain_loser hnd hnl hcid (hothF c ho).2.2.1]
      have hiso : isPrimaryB ({ c with linkPrecedence := .secondary, linkedId := some pc.id, updatedAt := now1 } : Contact) = false := rfl
      rw [hiso, Bool.and_false]
    · rw [decide_eq_false hcid, Bool.not_false, Bool.and_true]
      have hprim : isPrimaryB (demoteChain pc.id now1 (others.map (·.id)) c) = isPrimaryB c := by
        cases hprec : c.linkPrecedence with
        | primary =>
          have hNone := (hi c hc).1 hprec
          rw [demoteChain_untouched hcid (fun t ht h2 => by rw [hNone] at h2; cases h2)]
        | secondary =>
          rcases (hi c hc).2 hprec with ⟨q2, hq2, hlk, hq2p⟩
          by_cases hq2in : q2.id ∈ others.map (·.id)
          · rw [demoteChain_repointed hnd hnl hcid hlk hq2in]
            rfl
          · rw [demoteChain_untouched hcid (fun t ht h2 => by
              rw [hlk] at h2
              have h3 : q2.id = t := by injection h2
              exact hq2in (h3 ▸ ht))]
      rw [hprim]
  have hkey : (storeAfter e p now1 s pc others).rows.filter
      (fun c => matchesQuery e p c && isPrimaryB c) = [pc] := by
    rw [storeAfter_rows, List.filter_append, pureDemote_rows, filter_map_pred]
    have hT : ((if insertsNew e p now1 s pc others then [newSecondaryRow e p now1 s pc others]
        else []).filter (fun c => matchesQuery e p c && isPrimaryB c)) = [] := by
      by_cases hins : insertsNew e p now1 s pc others = true
      · rw [if_pos hins]
        refine filter_none ?_
        intro a ha
        rcases List.mem_singleton.mp ha with rfl
        rw [show isPrimaryB (newSecondaryRow e p now1 s pc others) = false from rfl]
        rw [Bool.and_false]
      · rw [if_neg hins]
        rfl
    rw [hT, List.append_nil]
    have hcg : s.rows.filter
        (fun a => matchesQuery e p (demoteChain pc.id now1 (others.map (·.id)) a) &&
          isPrimaryB (demoteChain pc.id now1 (others.map (·.id)) a)) =
        s.rows.filter (fun c => (matchesQuery e p c && isPrimaryB c) &&
          !(decide (c.id ∈ others.map (·.id)))) :=
      List.filter_congr hrow
    rw [show (s.rows.filter
        (fun a => ((fun c => matchesQuery e p c && isPrimaryB c)
          (demoteChain pc.id now1 (others.map (·.id)) a)))) =
        s.rows.filter (fun a => matchesQuery e p (demoteChain pc.id now1 (others.map (·.id)) a) &&
          isPrimaryB (demoteChain pc.id now1 (others.map (·.id)) a)) from rfl, hcg]
    have hfe : s.rows.filter (fun c => (matchesQuery e p c && isPrimaryB c) &&
        !(decide (c.id ∈ others.map (·.id)))) = [pc] := by
      rw [filter_and_eq]
      have h5 := (sortPrimaries_findMatches_perm e p s).symm
      rw [hp] at h5
      have hperm := h5.filter (fun c => !(decide (c.id ∈ others.map (·.id))))
      have hRHS : (pc :: others).filter (fun c => !(decide (c.id ∈ others.map (·.id)))) =
          [pc] := by
        rw [List.filter_cons]
        rw [show (!(decide (pc.id ∈ others.map (·.id)))) = true by simp [hnl]]
        rw [filter_none (fun o ho => by simp [List.mem_map.mpr ⟨o, ho, rfl⟩])]
        rfl
      rw [hRHS] at hperm
      exact List.perm_singleton.mp hperm
    rw [hfe]
    have hpcu : demoteChain pc.id now1 (others.map (·.id)) pc = pc :=
      demoteChain_untouched hnl (fun t ht h2 => by rw [hpcF.2.2.1] at h2; cases h2)
    rw [List.map_cons, hpcu, List.map_nil]
  have hperm2 := sortPrimaries_findMatches_perm e p (storeAfter e p now1 s pc others)
  rw [hkey] at hperm2
  exact List.perm_singleton.mp hperm2

/-- C9: with a valid input against a store satisfying the invariants,
running `identifyContact` twice with the same arguments leaves the store
of the first call untouched (no new row, no update) and returns exactly
the same outcome, in particular the same `primaryContactId` and the same
`secondaryContactIds`. -/
theorem claim9_idempotent {e p : Option String} {now1 now2 : Nat} {s : Store}
    (hw : WF s) (hi : ClusterInv s) (hv : e.isSome ∨ p.isSome) :
    (identifyContact e p now2 (identifyContact e p now1 s).1).1 =
      (identifyContact e p now1 s).1 ∧
    (identifyContact e p now2 (identifyContact e p now1 s).1).2 =
      (identifyContact e p now1 s).2 := by
  by_cases hM : findMatches e p s = []
  · rw [@identifyContact_empty_eq e p now1 s hM]
    dsimp only
    set nc : Contact := ⟨s.nextId, p, e, none, .primary, now1, now1, none⟩ with hnc
    set s1 : Store := { rows := s.rows ++ [nc], nextId := s.nextId + 1 } with hs1
    have hq : matchesQuery e p nc = true := by
      rw [hnc]
      exact matchesQuery_self hv _ _ _
    have hfilter0 : s.rows.filter (matchesQuery e p) = [] :=
      orderByCreatedAtAsc_eq_nil.mp hM
    have hrows1 : s1.rows = s.rows ++ [nc] := by rw [hs1]
    have hfm : findMatches e p s1 = [nc] := by
      unfold findMatches
      rw [hrows1, List.filter_append, hfilter0, List.nil_append]
      rw [show ([nc].filter (matchesQuery e p)) = [nc] by simp [List.filter_cons, hq]]
      rfl
    have hprim : isPrimaryB nc = true := by rw [hnc]; rfl
    have hsp1 : sortPrimaries (findMatches e p s1) = nc :: [] := by
      rw [hfm]
      unfold sortPrimaries
      rw [show ([nc].filter isPrimaryB) = [nc] by simp [List.filter_cons, hprim]]
      rfl
    rw [identifyContact_main_eq hsp1, mainResult_eq]
    have hncid : nc.id = s.nextId := by rw [hnc]
    have hlkn : nc.linkedId = none := by rw [hnc]
    have hroster : fetchRoster s1 nc.id = [] := by
      unfold fetchRoster
      rw [hrows1, List.filter_append]
      have h1 : s.rows.filter (fun c => c.linkedId == some nc.id) = [] := by
        refine filter_none ?_
        intro c hc
        cases hlk : c.linkedId with
        | none => rfl
        | some t =>
          have hlt := linked_lt hw hi c hc t hlk
          rw [hncid]
          rw [show ((some t == some s.nextId) : Bool) = (t == s.nextId) from rfl]
          exact beq_eq_false_iff_ne.mpr (Nat.ne_of_lt hlt)
      have h2 : ([nc].filter (fun c => c.linkedId == some nc.id)) = [] := by
        simp [List.filter_cons, hlkn]
      rw [h1, h2]
      rfl
    have hins : insertsNew e p now2 s1 nc [] = false := by
      unfold insertsNew
      dsimp only
      rw [show pureDemote nc.id now2 s1 [] = s1 from rfl]
      rw [hroster]
      rw [List.map_nil, List.map_nil]
      rw [hasNew_self, hasNew_self]
      rfl
    constructor
    · rw [storeAfter_no_insert hins]
      rfl
    · rw [rosterAfter_no_insert hins]
      rw [show pureDemote nc.id now2 s1 [] = s1 from rfl]
      rw [hroster]
      rw [List.map_nil, List.map_nil, List.map_nil]
      rw [assembleVals_nil, assembleVals_nil]
  · rcases hsp : sortPrimaries (findMatches e p s) with _ | ⟨pc, others⟩
    · rw [@identifyContact_nosp_eq e p now1 s hM hsp]
      dsimp only
      rw [@identifyContact_nosp_eq e p now2 s hM hsp]
      exact ⟨rfl, rfl⟩
    · rw [@identifyContact_main_eq e p now1 s pc others hsp, mainResult_eq]
      dsimp only
      have hsp2 : sortPrimaries (findMatches e p (storeAfter e p now1 s pc others)) =
          pc :: [] := second_primaries hw hi hsp
      rw [@identifyContact_main_eq e p now2 (storeAfter e p now1 s pc others) pc [] hsp2, mainResult_eq]
      have hri := second_insertsNew_false e p now1 now2 s pc others
      constructor
      · rw [storeAfter_no_insert hri]
        rfl
      · rw [rosterAfter_no_insert hri]
        rw [show pureDemote pc.id now2 (storeAfter e p now1 s pc others) [] =
          storeAfter e p now1 s pc others from rfl]
        rw [second_roster]

/-- Witness for C9: resubmitting the consolidating input against `wstore`. -/
theorem claim9_idempotent_witness :
    (identifyContact (some "a@x.com") (some "222") 8
        (identifyContact (some "a@x.com") (some "222") 7 wstore).1).1 =
      (identifyContact (some "a@x.com") (some "222") 7 wstore).1 ∧
    (identifyContact (some "a@x.com") (some "222") 8
        (identifyContact (some "a@x.com") (some "222") 7 wstore).1).2 =
      (identifyContact (some "a@x.com") (some "222") 7 wstore).2 :=
  claim9_idempotent (by decide) (by decide) (Or.inl (by decide))
